import Mathlib

/-!
Shallow embedding of the notebook
`notebooks/how-tos/avalanchedataset/preamble-pytorch-datasets.ipynb`.

The repository's only executable content is a single code cell:

    x_data = torch.rand(100, 22)
    y_data = torch.randint(0, 5, (100,))
    my_dataset = TensorDataset(x_data, y_data)
    my_dataloader = DataLoader(my_dataset, batch_size=10, shuffle=True, num_workers=4)
    for x_minibatch, y_minibatch in my_dataloader:
        print('Loaded minibatch of', len(x_minibatch), 'instances')

The PyTorch primitives (`torch.rand`, `torch.randint`, `TensorDataset`,
`DataLoader`) are external library code not present in the repository, so
they are modelled from the spec and from the notebook's own prose
description of their contracts.  Random sources are modelled as explicit
entry functions, and the shuffle performed by the loader is modelled as an
explicit permutation of the index range.
-/

namespace Preamble

/-- Modelled from the spec: `torch.rand(n, k)` produces a tensor of `n` rows,
each row holding `k` feature values.  The numeric values themselves are
irrelevant to every claim, so they are supplied by an abstract entry
source `entry`. -/
def torchRand {α : Type} (entry : Nat → Nat → α) (n k : Nat) : List (List α) :=
  (List.range n).map (fun i => (List.range k).map (fun j => entry i j))

/-- Modelled from the spec: `torch.randint(lo, hi, (n,))` produces `n` integer
labels drawn from the range `[lo, hi)`.  The abstract entry source is reduced
modulo the width of the range, so every produced label lies in `[lo, hi)`
whenever `lo < hi`, exactly as the library contract guarantees. -/
def torchRandint (lo hi : Int) (n : Nat) (entry : Nat → Nat) : List Int :=
  (List.range n).map (fun i => lo + ((entry i % (hi - lo).toNat : Nat) : Int))

/-- Modelled from the spec: the paired-sequence container (`TensorDataset`)
is instantiated by passing X and Y tensors; each row of X and Y is
interpreted as one data point. -/
structure TensorDataset (α β : Type) where
  x : List α
  y : List β

/-- The dataset's `__len__()`: the number of rows of the X tensor (the
constructor requires X and Y to have the same first dimension). -/
def TensorDataset.len {α β : Type} (d : TensorDataset α β) : Nat :=
  d.x.length

/-- The dataset's `__getitem__(idx)`: the pair of the `idx`-th row of X and
the `idx`-th element of Y, or `none` out of bounds. -/
def TensorDataset.getItem {α β : Type} (d : TensorDataset α β) (idx : Nat) :
    Option (α × β) :=
  match d.x.get? idx, d.y.get? idx with
  | some a, some b => some (a, b)
  | _, _ => none

/-- The sequence of data points of the dataset, in index order. -/
def TensorDataset.items {α β : Type} (d : TensorDataset α β) : List (α × β) :=
  d.x.zip d.y

/-- Fuel-driven batching: split a list into consecutive runs of at most `b`
elements.  `xs.length` fuel suffices whenever `1 ≤ b`. -/
def chunkFuel {α : Type} (b : Nat) : Nat → List α → List (List α)
  | 0, _ => []
  | _ + 1, [] => []
  | f + 1, x :: xs => ((x :: xs).take b) :: chunkFuel b f ((x :: xs).drop b)

/-- Split a list into consecutive batches of `b` elements, the last batch
holding the remainder (no remainder-drop). -/
def chunk {α : Type} (b : Nat) (xs : List α) : List (List α) :=
  chunkFuel b xs.length xs

/-- Modelled from the spec: the external `DataLoader` utility batches,
optionally shuffles, and optionally parallel-loads data points from a
dataset.  The shuffle drawn for the epoch is made explicit as `epochPerm`
(a permutation of the index range); the worker count only configures
parallelism internal to the library and does not affect the yielded
batches. -/
def DataLoader {α β : Type} (dataset : TensorDataset α β) (batchSize : Nat)
    (shuffle : Bool) (epochPerm : List Nat) (numWorkers : Nat) :
    List (List (α × β)) :=
  let indices := if shuffle then epochPerm else List.range dataset.len
  chunk batchSize (indices.filterMap (fun i => dataset.items.get? i))

/-- Modelled from the spec: the loader's default collation turns a batch of
`(x, y)` pairs into the pair of the X minibatch and the Y minibatch. -/
def collate {α β : Type} (batch : List (α × β)) : List α × List β :=
  (batch.map Prod.fst, batch.map Prod.snd)

/-- The line printed for one batch:
`print('Loaded minibatch of', len(x_minibatch), 'instances')`. -/
def batchLine {α β : Type} (batch : List (α × β)) : String :=
  "Loaded minibatch of " ++ toString (collate batch).1.length ++ " instances"

/-- The lines printed by the script's `for` loop: one line per yielded
batch, in order, and nothing else. -/
def loaderPrints {α β : Type} (batches : List (List (α × β))) : List String :=
  batches.map batchLine

/-- `x_data = torch.rand(100, 22)`. -/
def x_data {α : Type} (e : Nat → Nat → α) : List (List α) :=
  torchRand e 100 22

/-- `y_data = torch.randint(0, 5, (100,))`. -/
def y_data (e : Nat → Nat) : List Int :=
  torchRandint 0 5 100 e

/-- `my_dataset = TensorDataset(x_data, y_data)`. -/
def my_dataset {α : Type} (e1 : Nat → Nat → α) (e2 : Nat → Nat) :
    TensorDataset (List α) Int :=
  TensorDataset.mk (x_data e1) (y_data e2)

/-- `my_dataloader = DataLoader(my_dataset, batch_size=10, shuffle=True,
num_workers=4)`, with the epoch's shuffle permutation made explicit. -/
def my_dataloader {α : Type} (e1 : Nat → Nat → α) (e2 : Nat → Nat)
    (perm : List Nat) : List (List (List α × Int)) :=
  DataLoader (my_dataset e1 e2) 10 true perm 4

/-- The full sequence of lines the script prints during its single epoch. -/
def epochPrints {α : Type} (e1 : Nat → Nat → α) (e2 : Nat → Nat)
    (perm : List Nat) : List String :=
  loaderPrints (my_dataloader e1 e2 perm)

/-- The size of the last batch when a length-`n` dataset is split into
batches of `b` without remainder-drop. -/
def lastBatchSize (n b : Nat) : Nat :=
  if n % b = 0 then b else n % b

/-- A coarse model of the machine state the script could touch: a file
store, the environment variables, and the standard-output line buffer. -/
structure World where
  files : String → Option String
  envVars : String → Option String
  stdoutLines : List String

/-- Modelled from the spec: the notebook's single code cell consists of
imports, local assignments and one print loop; its only effect on the
world is appending the epoch's printed lines to standard output. -/
def runScript {α : Type} (e1 : Nat → Nat → α) (e2 : Nat → Nat)
    (perm : List Nat) (w : World) : World :=
  { w with stdoutLines := w.stdoutLines ++ epochPrints e1 e2 perm }

/-- A concrete feature-entry source used to evaluate the model on closed
inputs. -/
def entryX : Nat → Nat → Nat := fun i j => i * 100 + j

/-- A concrete label-entry source used to evaluate the model on closed
inputs. -/
def entryY : Nat → Nat := fun i => i

/-- The identity shuffle of the 100 indices, a concrete permutation of the
index range. -/
def idPerm : List Nat := List.range 100

/-- A world with no files, no environment variables and empty standard
output, used to evaluate the frame property on a closed input. -/
def emptyWorld : World :=
  World.mk (fun _ => none) (fun _ => none) []

/-- A concrete seven-point dataset used to evaluate the general batching
law on a closed input with a nonempty remainder batch. -/
def smallDataset : TensorDataset Nat Nat :=
  TensorDataset.mk (List.range 7) (List.range 7)

theorem chunkFuel_nil {α : Type} (b f : Nat) : chunkFuel b f ([] : List α) = [] := by
  cases f <;> rfl

theorem chunkFuel_congr {α : Type} (b : Nat) (hb : 1 ≤ b) :
    ∀ (f g : Nat) (xs : List α), xs.length ≤ f → xs.length ≤ g →
      chunkFuel b f xs = chunkFuel b g xs := by
  intro f
  induction f with
  | zero =>
    intro g xs hf _
    have : xs = [] := List.eq_nil_of_length_eq_zero (Nat.le_zero.mp hf)
    subst this
    rw [chunkFuel_nil, chunkFuel_nil]
  | succ f ih =>
    intro g xs hf hg
    cases xs with
    | nil => rw [chunkFuel_nil, chunkFuel_nil]
    | cons x t =>
      cases g with
      | zero => simp at hg
      | succ g =>
        show ((x :: t).take b) :: chunkFuel b f ((x :: t).drop b)
            = ((x :: t).take b) :: chunkFuel b g ((x :: t).drop b)
        have hlen : ((x :: t).drop b).length ≤ f := by
          simp only [List.length_drop, List.length_cons] at *
          omega
        have hlen2 : ((x :: t).drop b).length ≤ g := by
          simp only [List.length_drop, List.length_cons] at *
          omega
        rw [ih g _ hlen hlen2]

theorem chunk_nil {α : Type} (b : Nat) : chunk b ([] : List α) = [] := rfl

theorem chunk_cons {α : Type} (b : Nat) (hb : 1 ≤ b) (x : α) (xs : List α) :
    chunk b (x :: xs) = ((x :: xs).take b) :: chunk b ((x :: xs).drop b) := by
  show ((x :: xs).take b) :: chunkFuel b xs.length ((x :: xs).drop b)
      = ((x :: xs).take b) :: chunkFuel b ((x :: xs).drop b).length ((x :: xs).drop b)
  have h : ((x :: xs).drop b).length ≤ xs.length := by
    simp only [List.length_drop, List.length_cons]; omega
  rw [chunkFuel_congr b hb _ _ _ h le_rfl]

theorem ceil_div_succ (n b : Nat) (hb : 1 ≤ b) (hn : 1 ≤ n) :
    (n + b - 1) / b = (n - b + b - 1) / b + 1 := by
  have h1 : n + b - 1 = (n - 1) + b := by omega
  rw [h1, Nat.add_div_right _ hb]
  rcases le_or_lt n b with h | h
  · have h2 : n - b + b - 1 = b - 1 := by omega
    have e1 : (n - 1) / b = 0 := Nat.div_eq_of_lt (by omega)
    have e2 : (b - 1) / b = 0 := Nat.div_eq_of_lt (by omega)
    rw [h2, e1, e2]
  · have h2 : n - b + b - 1 = (n - b - 1) + b := by omega
    have h3 : n - 1 = (n - b - 1) + b := by omega
    rw [h2, h3, Nat.add_div_right _ hb]

theorem chunk_flatten {α : Type} (b : Nat) (hb : 1 ≤ b) :
    ∀ xs : List α, (chunk b xs).flatten = xs := by
  suffices h : ∀ (n : Nat) (xs : List α), xs.length = n → (chunk b xs).flatten = xs by
    exact fun xs => h xs.length xs rfl
  intro n
  induction n using Nat.strong_induction_on with
  | _ n ih =>
    intro xs hxs
    cases xs with
    | nil => rw [chunk_nil]; rfl
    | cons x t =>
      rw [chunk_cons b hb, List.flatten_cons]
      have hlt : ((x :: t).drop b).length < n := by
        simp only [List.length_drop, List.length_cons] at *
        omega
      rw [ih _ hlt _ rfl, List.take_append_drop]

theorem chunk_length {α : Type} (b : Nat) (hb : 1 ≤ b) :
    ∀ xs : List α, (chunk b xs).length = (xs.length + b - 1) / b := by
  suffices h : ∀ (n : Nat) (xs : List α), xs.length = n →
      (chunk b xs).length = (xs.length + b - 1) / b by
    exact fun xs => h xs.length xs rfl
  intro n
  induction n using Nat.strong_induction_on with
  | _ n ih =>
    intro xs hxs
    cases xs with
    | nil =>
      rw [chunk_nil]
      simp only [List.length_nil]
      rw [Nat.div_eq_of_lt (by omega)]
    | cons x t =>
      rw [chunk_cons b hb, List.length_cons]
      have hlt : ((x :: t).drop b).length < n := by
        simp only [List.length_drop, List.length_cons] at *
        omega
      rw [ih _ hlt _ rfl]
      rw [List.length_drop]
      rw [ceil_div_succ (x :: t).length b hb (by simp)]

theorem chunk_ne_nil {α : Type} (b : Nat) (hb : 1 ≤ b) (x : α) (xs : List α) :
    chunk b (x :: xs) ≠ [] := by
  rw [chunk_cons b hb]
  exact List.cons_ne_nil _ _

theorem chunk_dropLast {α : Type} (b : Nat) (hb : 1 ≤ b) :
    ∀ xs : List α, ∀ l ∈ (chunk b xs).dropLast, l.length = b := by
  suffices h : ∀ (n : Nat) (xs : List α), xs.length = n →
      ∀ l ∈ (chunk b xs).dropLast, l.length = b by
    exact fun xs => h xs.length xs rfl
  intro n
  induction n using Nat.strong_induction_on with
  | _ n ih =>
    intro xs hxs
    cases xs with
    | nil => rw [chunk_nil]; intro l hl; simp at hl
    | cons x t =>
      rw [chunk_cons b hb]
      cases hdrop : (x :: t).drop b with
      | nil =>
        rw [chunk_nil]
        intro l hl; simp at hl
      | cons y ys =>
        have hne : chunk b (y :: ys) ≠ [] := chunk_ne_nil b hb y ys
        rw [List.dropLast_cons_of_ne_nil hne]
        have hdlen : (y :: ys).length = (x :: t).length - b := by
          have h0 := congrArg List.length hdrop
          rw [List.length_drop] at h0
          exact h0.symm
        have hblt : b < (x :: t).length := by
          by_contra hc
          push_neg at hc
          rw [List.drop_eq_nil_of_le hc] at hdrop
          exact List.cons_ne_nil y ys hdrop.symm
        intro l hl
        rcases List.mem_cons.mp hl with hl | hl
        · subst hl
          rw [List.length_take]
          omega
        · have hlt : (y :: ys).length < n := by
            simp only [List.length_cons] at *
            omega
          exact ih _ hlt _ rfl l hl

theorem lastBatchSize_sub (n b : Nat) (h : b ≤ n) :
    lastBatchSize (n - b) b = lastBatchSize n b := by
  unfold lastBatchSize
  have e : n - b + b = n := by omega
  have hmod : n % b = (n - b) % b := by
    conv_lhs => rw [← e]
    rw [Nat.add_mod_right]
  rw [hmod]

theorem chunk_getLast {α : Type} (b : Nat) (hb : 1 ≤ b) :
    ∀ xs : List α, xs ≠ [] →
      ((chunk b xs).getLast?).map List.length = some (lastBatchSize xs.length b) := by
  suffices h : ∀ (n : Nat) (xs : List α), xs.length = n → xs ≠ [] →
      ((chunk b xs).getLast?).map List.length = some (lastBatchSize xs.length b) by
    exact fun xs => h xs.length xs rfl
  intro n
  induction n using Nat.strong_induction_on with
  | _ n ih =>
    intro xs hxs hne
    cases xs with
    | nil => exact absurd rfl hne
    | cons x t =>
      rw [chunk_cons b hb]
      cases hdrop : (x :: t).drop b with
      | nil =>
        rw [chunk_nil]
        have hle : (x :: t).length ≤ b := by
          have h0 := congrArg List.length hdrop
          rw [List.length_drop] at h0
          simp only [List.length_nil] at h0
          omega
        have htake : ((x :: t).take b).length = (x :: t).length := by
          rw [List.length_take]
          omega
        simp only [List.getLast?_singleton, Option.map_some']
        rw [htake]
        rcases lt_or_eq_of_le hle with hlt | heq
        · have hm : (x :: t).length % b = (x :: t).length := Nat.mod_eq_of_lt hlt
          unfold lastBatchSize
          rw [hm]
          have : (x :: t).length ≠ 0 := by simp
          simp [this]
        · unfold lastBatchSize
          rw [heq, Nat.mod_self]
          simp
      | cons y ys =>
        have hcons := chunk_cons b hb y ys
        have hgl : (((x :: t).take b) :: chunk b (y :: ys)).getLast?
            = (chunk b (y :: ys)).getLast? := by
          rw [hcons, List.getLast?_cons_cons, ← hcons]
        rw [hgl]
        have hdlen : (y :: ys).length = (x :: t).length - b := by
          have h0 := congrArg List.length hdrop
          rw [List.length_drop] at h0
          exact h0.symm
        have hblt : b < (x :: t).length := by
          by_contra hc
          push_neg at hc
          rw [List.drop_eq_nil_of_le hc] at hdrop
          exact List.cons_ne_nil y ys hdrop.symm
        have hlt : (y :: ys).length < n := by
          simp only [List.length_cons] at *
          omega
        rw [ih _ hlt _ rfl (List.cons_ne_nil y ys)]
        rw [hdlen]
        rw [lastBatchSize_sub _ b (le_of_lt hblt)]

theorem chunk_mem_length_of_mod_eq_zero {α : Type} (b : Nat) (hb : 1 ≤ b)
    (xs : List α) (hmod : xs.length % b = 0) : ∀ l ∈ chunk b xs, l.length = b := by
  intro l hl
  cases xs with
  | nil => rw [chunk_nil] at hl; simp at hl
  | cons x t =>
    have hne : chunk b (x :: t) ≠ [] := chunk_ne_nil b hb x t
    rw [← List.dropLast_append_getLast hne] at hl
    rcases List.mem_append.mp hl with h | h
    · exact chunk_dropLast b hb (x :: t) l h
    · have hlast := List.mem_singleton.mp h
      subst hlast
      have hg := chunk_getLast b hb (x :: t) (List.cons_ne_nil x t)
      rw [List.getLast?_eq_getLast _ hne] at hg
      simp only [Option.map_some'] at hg
      rw [Option.some.injEq] at hg
      have hls : lastBatchSize (x :: t).length b = b := by
        unfold lastBatchSize
        rw [hmod]
        simp
      rw [hg, hls]

theorem filterMap_get?_range {α : Type} (xs : List α) :
    (List.range xs.length).filterMap (fun i => xs.get? i) = xs := by
  induction xs with
  | nil => simp
  | cons x t ih =>
    rw [List.length_cons, List.range_succ_eq_map]
    rw [List.filterMap_cons]
    simp only [List.get?_cons_zero]
    rw [List.filterMap_map]
    have hc : ((fun i => (x :: t).get? i) ∘ (fun i => i + 1)) = (fun i => t.get? i) := by
      funext i
      simp [Function.comp]
    rw [hc, ih]

theorem filterMap_get?_perm {α : Type} (xs : List α) (perm : List Nat)
    (h : perm.Perm (List.range xs.length)) :
    (perm.filterMap (fun i => xs.get? i)).Perm xs := by
  have h2 := h.filterMap (fun i => xs.get? i)
  rwa [filterMap_get?_range] at h2

theorem mem_of_mem_filterMap_get? {α : Type} (xs : List α) (perm : List Nat) (a : α)
    (ha : a ∈ perm.filterMap (fun i => xs.get? i)) : a ∈ xs := by
  rcases List.mem_filterMap.mp ha with ⟨i, _, hi⟩
  exact List.get?_mem hi

theorem my_dataset_items_length {α : Type} (e1 : Nat → Nat → α) (e2 : Nat → Nat) :
    (my_dataset e1 e2).items.length = 100 := by
  simp [TensorDataset.items, my_dataset, x_data, y_data, torchRand, torchRandint]

theorem my_dataloader_eq_chunk {α : Type} (e1 : Nat → Nat → α) (e2 : Nat → Nat)
    (perm : List Nat) :
    my_dataloader e1 e2 perm
      = chunk 10 (perm.filterMap (fun i => (my_dataset e1 e2).items.get? i)) := rfl

theorem my_dataloader_shuffled_length {α : Type} (e1 : Nat → Nat → α) (e2 : Nat → Nat)
    (perm : List Nat) (hperm : perm.Perm (List.range 100)) :
    (perm.filterMap (fun i => (my_dataset e1 e2).items.get? i)).length = 100 := by
  have hp : perm.Perm (List.range (my_dataset e1 e2).items.length) := by
    rwa [my_dataset_items_length]
  rw [(filterMap_get?_perm _ perm hp).length_eq, my_dataset_items_length]

/-- Claim C1: with the script's configuration (a dataset of 100 data
points, batch size 10, no remainder-drop), one full iteration of the data
loader yields exactly 10 batches, each containing exactly 10 rows. -/
theorem C1_ten_batches_of_ten {α : Type} (e1 : Nat → Nat → α) (e2 : Nat → Nat)
    (perm : List Nat) (hperm : perm.Perm (List.range 100)) :
    (my_dataloader e1 e2 perm).length = 10 ∧
      ∀ batch ∈ my_dataloader e1 e2 perm, batch.length = 10 := by
  have hb : (1 : Nat) ≤ 10 := by omega
  have hlen := my_dataloader_shuffled_length e1 e2 perm hperm
  constructor
  · rw [my_dataloader_eq_chunk, chunk_length 10 hb, hlen]
  · rw [my_dataloader_eq_chunk]
    exact chunk_mem_length_of_mod_eq_zero 10 hb _ (by rw [hlen])

theorem C1_witness :
    (my_dataloader entryX entryY idPerm).length = 10 ∧
      ∀ batch ∈ my_dataloader entryX entryY idPerm, batch.length = 10 :=
  C1_ten_batches_of_ten entryX entryY idPerm (List.Perm.refl _)

/-- Claim C2: the row counts of the batches yielded by one full iteration
of the script's loader sum to exactly 100, the length of the underlying
dataset. -/
theorem C2_total_rows_one_hundred {α : Type} (e1 : Nat → Nat → α) (e2 : Nat → Nat)
    (perm : List Nat) (hperm : perm.Perm (List.range 100)) :
    ((my_dataloader e1 e2 perm).map List.length).sum = 100 := by
  have hb : (1 : Nat) ≤ 10 := by omega
  have hlen := my_dataloader_shuffled_length e1 e2 perm hperm
  rw [my_dataloader_eq_chunk, ← List.length_flatten, chunk_flatten 10 hb, hlen]

theorem C2_witness :
    ((my_dataloader entryX entryY idPerm).map List.length).sum = 100 :=
  C2_total_rows_one_hundred entryX entryY idPerm (List.Perm.refl _)

/-- Claim C3: the dataset object the script constructs supports the two
glossary operations: its length is 100, and getting item `idx` for
`idx < 100` returns the pair of the `idx`-th row of the X tensor and the
`idx`-th element of the Y tensor. -/
theorem C3_dataset_interface {α : Type} (e1 : Nat → Nat → α) (e2 : Nat → Nat) :
    (my_dataset e1 e2).len = 100 ∧
      ∀ idx, idx < 100 →
        ∀ (h1 : idx < (x_data e1).length) (h2 : idx < (y_data e2).length),
          (my_dataset e1 e2).getItem idx =
            some ((x_data e1).get ⟨idx, h1⟩, (y_data e2).get ⟨idx, h2⟩) := by
  constructor
  · simp [TensorDataset.len, my_dataset, x_data, torchRand]
  · intro idx hidx h1 h2
    have ha : (my_dataset e1 e2).x.get? idx = some ((x_data e1).get ⟨idx, h1⟩) :=
      List.get?_eq_get h1
    have hb : (my_dataset e1 e2).y.get? idx = some ((y_data e2).get ⟨idx, h2⟩) :=
      List.get?_eq_get h2
    unfold TensorDataset.getItem
    rw [ha, hb]

theorem C3_witness :
    (my_dataset entryX entryY).len = 100 ∧
      ∀ idx, idx < 100 →
        ∀ (h1 : idx < (x_data entryX).length) (h2 : idx < (y_data entryY).length),
          (my_dataset entryX entryY).getItem idx =
            some ((x_data entryX).get ⟨idx, h1⟩, (y_data entryY).get ⟨idx, h2⟩) :=
  C3_dataset_interface entryX entryY

/-- Claim C4: the script iterates the loader once and prints exactly one
line per yielded batch, that line reporting the size of the batch's X
minibatch, with no other lines printed. -/
theorem C4_one_line_per_batch {α : Type} (e1 : Nat → Nat → α) (e2 : Nat → Nat)
    (perm : List Nat) :
    (epochPrints e1 e2 perm).length = (my_dataloader e1 e2 perm).length ∧
      (∀ i : Nat, (epochPrints e1 e2 perm).get? i =
        ((my_dataloader e1 e2 perm).get? i).map batchLine) ∧
      ∀ batch ∈ my_dataloader e1 e2 perm,
        batchLine batch =
          "Loaded minibatch of " ++ toString batch.length ++ " instances" := by
  refine ⟨?_, ?_, ?_⟩
  · simp [epochPrints, loaderPrints]
  · intro i
    simp [epochPrints, loaderPrints, List.get?_map]
  · intro batch hbatch
    simp [batchLine, collate]

theorem C4_witness :
    (epochPrints entryX entryY idPerm).length = (my_dataloader entryX entryY idPerm).length ∧
      (∀ i : Nat, (epochPrints entryX entryY idPerm).get? i =
        ((my_dataloader entryX entryY idPerm).get? i).map batchLine) ∧
      ∀ batch ∈ my_dataloader entryX entryY idPerm,
        batchLine batch =
          "Loaded minibatch of " ++ toString batch.length ++ " instances" :=
  C4_one_line_per_batch entryX entryY idPerm

/-- Claim C5: the script requests exactly 100 rows of feature vectors of
22 features each and exactly 100 labels, so the feature tensor and the
label tensor have the same first dimension, 100. -/
theorem C5_equal_first_dims {α : Type} (e1 : Nat → Nat → α) (e2 : Nat → Nat) :
    (x_data e1).length = 100 ∧ (∀ row ∈ x_data e1, row.length = 22) ∧
      (y_data e2).length = 100 ∧ (x_data e1).length = (y_data e2).length := by
  refine ⟨?_, ?_, ?_, ?_⟩
  · simp [x_data, torchRand]
  · intro row hrow
    simp only [x_data, torchRand, List.mem_map, List.mem_range] at hrow
    obtain ⟨i, _, rfl⟩ := hrow
    simp
  · simp [y_data, torchRandint]
  · simp [x_data, y_data, torchRand, torchRandint]

theorem C5_witness :
    (x_data entryX).length = 100 ∧ (∀ row ∈ x_data entryX, row.length = 22) ∧
      (y_data entryY).length = 100 ∧ (x_data entryX).length = (y_data entryY).length :=
  C5_equal_first_dims entryX entryY

/-- Claim C6: the worker-count argument has no influence on the script's
observable result: two runs differing only in the worker count passed to
the loader, on the same dataset and the same shuffle permutation, print
identical lines. -/
theorem C6_workers_do_not_affect_output {α β : Type} (dataset : TensorDataset α β)
    (bs : Nat) (sh : Bool) (perm : List Nat) (w1 w2 : Nat) :
    loaderPrints (DataLoader dataset bs sh perm w1)
      = loaderPrints (DataLoader dataset bs sh perm w2) := rfl

theorem C6_witness :
    loaderPrints (DataLoader (my_dataset entryX entryY) 10 true idPerm 4)
      = loaderPrints (DataLoader (my_dataset entryX entryY) 10 true idPerm 0) :=
  C6_workers_do_not_affect_output (my_dataset entryX entryY) 10 true idPerm 4 0

/-- Claim C7: the script persists no state and defines no external surface:
running it leaves the files and environment variables of the world
unchanged, and its only effect is appending its printed lines to standard
output. -/
theorem C7_frame_property {α : Type} (e1 : Nat → Nat → α) (e2 : Nat → Nat)
    (perm : List Nat) (w : World) :
    (runScript e1 e2 perm w).files = w.files ∧
      (runScript e1 e2 perm w).envVars = w.envVars ∧
      (runScript e1 e2 perm w).stdoutLines = w.stdoutLines ++ epochPrints e1 e2 perm :=
  ⟨rfl, rfl, rfl⟩

theorem C7_witness :
    (runScript entryX entryY idPerm emptyWorld).files = emptyWorld.files ∧
      (runScript entryX entryY idPerm emptyWorld).envVars = emptyWorld.envVars ∧
      (runScript entryX entryY idPerm emptyWorld).stdoutLines
        = emptyWorld.stdoutLines ++ epochPrints entryX entryY idPerm :=
  C7_frame_property entryX entryY idPerm emptyWorld

/-- Claim C8: generalised batching law: for a dataset of length `n ≥ 1` and
batch size `b ≥ 1` with no remainder-drop, one full iteration of the loader
yields `⌈n / b⌉` batches; every batch except possibly the last has exactly
`b` rows, and the last has `n % b` rows when `n % b ≠ 0` and `b` rows
otherwise. -/
theorem C8_general_batching_law {α β : Type} (dataset : TensorDataset α β)
    (n b nw : Nat) (hn : 1 ≤ n) (hb : 1 ≤ b) (perm : List Nat)
    (hlen : dataset.items.length = n) (hperm : perm.Perm (List.range n)) :
    (DataLoader dataset b true perm nw).length = (n + b - 1) / b ∧
      (∀ l ∈ (DataLoader dataset b true perm nw).dropLast, l.length = b) ∧
      ((DataLoader dataset b true perm nw).getLast?).map List.length
        = some (lastBatchSize n b) := by
  have hDL : DataLoader dataset b true perm nw
      = chunk b (perm.filterMap (fun i => dataset.items.get? i)) := rfl
  have hp : perm.Perm (List.range dataset.items.length) := by rwa [hlen]
  have hs : (perm.filterMap (fun i => dataset.items.get? i)).length = n := by
    rw [(filterMap_get?_perm _ perm hp).length_eq, hlen]
  have hne : (perm.filterMap (fun i => dataset.items.get? i)) ≠ [] :=
    List.ne_nil_of_length_pos (by omega)
  refine ⟨?_, ?_, ?_⟩
  · rw [hDL, chunk_length b hb, hs]
  · rw [hDL]
    exact chunk_dropLast b hb _
  · rw [hDL, chunk_getLast b hb _ hne, hs]

theorem C8_witness :
    (DataLoader smallDataset 3 true (List.range 7) 0).length = (7 + 3 - 1) / 3 ∧
      (∀ l ∈ (DataLoader smallDataset 3 true (List.range 7) 0).dropLast, l.length = 3) ∧
      ((DataLoader smallDataset 3 true (List.range 7) 0).getLast?).map List.length
        = some (lastBatchSize 7 3) :=
  C8_general_batching_law smallDataset 7 3 0 (by omega) (by omega) (List.range 7)
    (by decide) (List.Perm.refl _)

/-- Claim C9: shuffling is a permutation, not a resampling: over one full
iteration of the script's loader, the multiset of (feature row, label)
pairs observed across all batches equals the multiset of the dataset's 100
data points. -/
theorem C9_epoch_is_permutation {α : Type} (e1 : Nat → Nat → α) (e2 : Nat → Nat)
    (perm : List Nat) (hperm : perm.Perm (List.range 100)) :
    ((my_dataloader e1 e2 perm).flatten).Perm ((my_dataset e1 e2).items) := by
  have hp : perm.Perm (List.range (my_dataset e1 e2).items.length) := by
    rwa [my_dataset_items_length]
  have h2 := filterMap_get?_perm ((my_dataset e1 e2).items) perm hp
  rw [my_dataloader_eq_chunk, chunk_flatten 10 (by omega)]
  exact h2

theorem C9_witness :
    ((my_dataloader entryX entryY idPerm).flatten).Perm ((my_dataset entryX entryY).items) :=
  C9_epoch_is_permutation entryX entryY idPerm (List.Perm.refl _)

/-- Claim C10: every label in the dataset, and hence every label in any
minibatch yielded by the loader, is an integer in the range 0 to 4
inclusive, because the label tensor is drawn from the integer range
`[0, 5)`. -/
theorem C10_labels_in_range {α : Type} (e1 : Nat → Nat → α) (e2 : Nat → Nat)
    (perm : List Nat) :
    (∀ l ∈ y_data e2, 0 ≤ l ∧ l < 5) ∧
      ∀ batch ∈ my_dataloader e1 e2 perm, ∀ p ∈ batch, 0 ≤ p.2 ∧ p.2 < 5 := by
  have hy : ∀ l ∈ y_data e2, 0 ≤ l ∧ l < 5 := by
    intro l hl
    simp only [y_data, torchRandint, List.mem_map, List.mem_range] at hl
    obtain ⟨i, _, rfl⟩ := hl
    have h5 : ((5 : Int) - 0).toNat = 5 := rfl
    rw [h5]
    have hm : e2 i % 5 < 5 := Nat.mod_lt _ (by omega)
    constructor
    · omega
    · omega
  refine ⟨hy, ?_⟩
  intro batch hbatch p hp
  have hflat : p ∈ (my_dataloader e1 e2 perm).flatten :=
    List.mem_flatten.mpr ⟨batch, hbatch, hp⟩
  rw [my_dataloader_eq_chunk, chunk_flatten 10 (by omega)] at hflat
  have hmem : p ∈ (my_dataset e1 e2).items :=
    mem_of_mem_filterMap_get? _ perm p hflat
  obtain ⟨px, py⟩ := p
  have hzip : (px, py) ∈ (x_data e1).zip (y_data e2) := hmem
  exact hy py (List.of_mem_zip hzip).2

theorem C10_witness :
    (∀ l ∈ y_data entryY, 0 ≤ l ∧ l < 5) ∧
      ∀ batch ∈ my_dataloader entryX entryY idPerm, ∀ p ∈ batch, 0 ≤ p.2 ∧ p.2 < 5 :=
  C10_labels_in_range entryX entryY idPerm

end Preamble
